import Mathlib

/-!
Verification of the storage layer of the blog platform.

The repository stores Users, Posts, Videos and Comments in a relational
store and accesses them through the typed operations of
`DatabaseStorage` in src/storage.js, over the table declarations of the
shared schema module.

We give a shallow embedding: the database is a record of row lists, and
each storage operation is a Lean function over that state, translated
from the SQL query the source builds (drizzle select / leftJoin / where /
orderBy / limit / offset / insert / update / delete, and Postgres ILIKE
pattern matching).  Timestamps are naturals; each operation that reads
the clock takes the current time as an explicit argument, and each
insert that relies on the generated-uuid column default takes the
generated id as an explicit argument.
-/

/-! ## Data model, from the shared schema table declarations.

Nullable columns are `Option`; `createdAt` and `updatedAt` carry the
`defaultNow()` column default, and ids the generated-uuid default. -/

/-- Row of the `users` table: id (primary key), nullable email, name and
image fields, nullable role with column default "user", timestamps. -/
structure User where
  id : String
  email : Option String
  firstName : Option String
  lastName : Option String
  profileImageUrl : Option String
  role : Option String
  createdAt : Nat
  updatedAt : Nat
deriving DecidableEq

/-- Row of the `posts` table: title/content/category non-null, excerpt,
imageUrl and tags nullable, non-null authorId referencing users, nullable
published with column default false, timestamps. -/
structure Post where
  id : String
  title : String
  content : String
  excerpt : Option String
  imageUrl : Option String
  category : String
  tags : Option (List String)
  authorId : String
  published : Option Bool
  createdAt : Nat
  updatedAt : Nat
deriving DecidableEq

/-- Row of the `videos` table: title/videoUrl/category non-null,
description, thumbnailUrl, tags and duration nullable, non-null authorId,
nullable published with default false, timestamps. -/
structure Video where
  id : String
  title : String
  description : Option String
  videoUrl : String
  thumbnailUrl : Option String
  category : String
  tags : Option (List String)
  duration : Option String
  authorId : String
  published : Option Bool
  createdAt : Nat
  updatedAt : Nat
deriving DecidableEq

/-- Row of the `comments` table: content and authorId non-null, postId and
videoId both nullable references, timestamps. -/
structure Comment where
  id : String
  content : String
  authorId : String
  postId : Option String
  videoId : Option String
  createdAt : Nat
  updatedAt : Nat
deriving DecidableEq

/-- The relational store: one row list per table. -/
structure DB where
  users : List User
  posts : List Post
  videos : List Video
  comments : List Comment
deriving DecidableEq

/-- `PostWithAuthor`: the post row spread together with the joined author.
The TypeScript type declares `author: User`, but the value is produced by
`row.users!` on a left join, a compile-time-only assertion: at runtime the
author slot holds whatever the left join produced, possibly null.  The
embedding therefore records it as `Option User`. -/
structure PostWithAuthor extends Post where
  author : Option User
deriving DecidableEq

/-- `VideoWithAuthor`: the video row spread together with the joined
author; same runtime shape as `PostWithAuthor`. -/
structure VideoWithAuthor extends Video where
  author : Option User
deriving DecidableEq

/-- `UpsertUser` (`typeof users.$inferInsert`): every column of `users` is
optional at insert time.  Outer `Option` means supplied-or-omitted; the
inner `Option` of nullable columns is the column value itself. -/
structure UpsertUser where
  id : Option String
  email : Option (Option String)
  firstName : Option (Option String)
  lastName : Option (Option String)
  profileImageUrl : Option (Option String)
  role : Option (Option String)
  createdAt : Option Nat
  updatedAt : Option Nat
deriving DecidableEq

/-- `Partial InsertPost`: the field set accepted by `updatePost`.
`InsertPost` omits id, createdAt and updatedAt, and the Partial wrapper
makes every remaining field optional (outer `Option`). -/
structure PostPatch where
  title : Option String
  content : Option String
  excerpt : Option (Option String)
  imageUrl : Option (Option String)
  category : Option String
  tags : Option (Option (List String))
  authorId : Option String
  published : Option (Option Bool)
deriving DecidableEq

/-- `Partial InsertVideo`: the field set accepted by `updateVideo`. -/
structure VideoPatch where
  title : Option String
  description : Option (Option String)
  videoUrl : Option String
  thumbnailUrl : Option (Option String)
  category : Option String
  tags : Option (Option (List String))
  duration : Option (Option String)
  authorId : Option String
  published : Option (Option Bool)
deriving DecidableEq

/-- `InsertComment`: content and authorId required, postId and videoId
nullable; an omitted nullable reference and an explicit null both store
NULL, so the embedding keeps just the stored column value. -/
structure InsertComment where
  content : String
  authorId : String
  postId : Option String
  videoId : Option String
deriving DecidableEq

/-! ## Generic query building blocks -/

/-- Stable insertion step for sorting by a natural key in descending
order: `x` goes after every earlier element of key at least `key x`. -/
def insDesc {α : Type} (key : α → Nat) (x : α) : List α → List α
  | [] => [x]
  | y :: ys => if key x ≤ key y then y :: insDesc key x ys else x :: y :: ys

/-- `ORDER BY key DESC` over a row list (stable insertion sort). -/
def sortDesc {α : Type} (key : α → Nat) : List α → List α
  | [] => []
  | x :: xs => insDesc key x (sortDesc key xs)

/-- The user rows a left join on `authorId = users.id` contributes for one
entity row: every matching user, or a single null row when none match. -/
def joinAuthor (us : List User) (aid : String) : List (Option User) :=
  match us.filter (fun u => u.id == aid) with
  | [] => [none]
  | found => found.map some

/-- First user with the given id, the unique join partner once user ids
are distinct. -/
def findAuthor (us : List User) (aid : String) : Option User :=
  us.find? (fun u => u.id == aid)

/-- Row set of `select().from(posts).leftJoin(users, eq(posts.authorId, users.id))`. -/
def postRows (us : List User) : List Post → List (Post × Option User)
  | [] => []
  | p :: ps => (joinAuthor us p.authorId).map (fun a => (p, a)) ++ postRows us ps

/-- Row set of `select().from(videos).leftJoin(users, eq(videos.authorId, users.id))`. -/
def videoRows (us : List User) : List Video → List (Video × Option User)
  | [] => []
  | v :: vs => (joinAuthor us v.authorId).map (fun a => (v, a)) ++ videoRows us vs

/-- Postgres LIKE pattern matching over characters: `%` matches any
sequence, `_` any single character, backslash escapes the next pattern
character, anything else matches itself.  A pattern ending in a bare
escape matches nothing (Postgres rejects it). -/
def likeMatch : List Char → List Char → Bool
  | [], s => s.isEmpty
  | '%' :: ps, s => s.tails.any (fun t => likeMatch ps t)
  | '_' :: _, [] => false
  | '_' :: ps, _ :: s => likeMatch ps s
  | ['\\'], _ => false
  | '\\' :: _ :: _, [] => false
  | '\\' :: pc :: ps, c :: s => pc == c && likeMatch ps s
  | _ :: _, [] => false
  | p :: ps, c :: s => p == c && likeMatch ps s
termination_by structural p _ => p

/-- Lowercasing of a character list (Postgres `lower`, ASCII letters). -/
def lowerL (l : List Char) : List Char := l.map Char.toLower

/-- `field ILIKE '%query%'`: case-insensitive LIKE against the pattern the
source interpolates the raw query into. -/
def ilikeContains (field q : String) : Bool :=
  likeMatch ('%' :: lowerL q.data ++ ['%']) (lowerL field.data)

/-! Spec-side text matching, following the specification wording
"case-insensitively substring-matches": a plain substring test, with no
wildcard interpretation.  Kept separate from `ilikeContains`, which is the
code-side ILIKE semantics, so the two can be compared. -/

/-- Does the second list start with the first? -/
def startsWith : List Char → List Char → Bool
  | [], _ => true
  | _ :: _, [] => false
  | a :: as, b :: bs => a == b && startsWith as bs

/-- Is the first list a contiguous run inside the second? -/
def hasSub (q : List Char) : List Char → Bool
  | [] => q.isEmpty
  | c :: t => startsWith q (c :: t) || hasSub q t

/-- Modelled from the spec: case-insensitive substring containment, the
reading of "query case-insensitively substring-matches the field". -/
def ciContains (field q : String) : Bool :=
  hasSub (lowerL q.data) (lowerL field.data)

/-- A character with no special meaning in a LIKE pattern. -/
def plainChar (c : Char) : Bool := !(c == '%' || c == '_' || c == '\\')

/-- The `{...row.posts, author: row.users!}` mapping step applied to the
single row a post produces once user ids are unique. -/
def mkPA (us : List User) (p : Post) : PostWithAuthor :=
  { toPost := p, author := findAuthor us p.authorId }

/-- The `{...row.videos, author: row.users!}` mapping step applied to the
single row a video produces once user ids are unique. -/
def mkVA (us : List User) (v : Video) : VideoWithAuthor :=
  { toVideo := v, author := findAuthor us v.authorId }

/-! ## Storage operations, from `DatabaseStorage` in src/storage.js -/

/-- `getPosts(limit = 20, offset = 0)`: left join with users, keep
published, order by createdAt descending, apply offset then limit, then
spread each row into the with-author shape. -/
def getPosts (db : DB) (limit : Nat := 20) (offset : Nat := 0) : List PostWithAuthor :=
  ((((sortDesc (fun r => r.1.createdAt)
      ((postRows db.users db.posts).filter (fun r => r.1.published == some true))).drop
        offset).take limit).map (fun r => { toPost := r.1, author := r.2 }))

/-- `getVideos(limit = 20, offset = 0)`: the video counterpart of
`getPosts`. -/
def getVideos (db : DB) (limit : Nat := 20) (offset : Nat := 0) : List VideoWithAuthor :=
  ((((sortDesc (fun r => r.1.createdAt)
      ((videoRows db.users db.videos).filter (fun r => r.1.published == some true))).drop
        offset).take limit).map (fun r => { toVideo := r.1, author := r.2 }))

/-- `getPost(id)`: left join with users, filter on the id, return the
first row spread into the with-author shape, or undefined when the result
set is empty.  No publish filter appears in the query. -/
def getPost (db : DB) (id : String) : Option PostWithAuthor :=
  (((postRows db.users db.posts).filter (fun r => r.1.id == id)).head?).map
    (fun r => { toPost := r.1, author := r.2 })

/-- `getVideo(id)`: the video counterpart of `getPost`. -/
def getVideo (db : DB) (id : String) : Option VideoWithAuthor :=
  (((videoRows db.users db.videos).filter (fun r => r.1.id == id)).head?).map
    (fun r => { toVideo := r.1, author := r.2 })

/-- The WHERE clause of `searchPosts`: published AND (title ILIKE pattern
OR content ILIKE pattern OR excerpt ILIKE pattern); an ILIKE against the
NULL excerpt is not true. -/
def postSearchCond (q : String) (p : Post) : Bool :=
  p.published == some true &&
    (ilikeContains p.title q || ilikeContains p.content q ||
      (match p.excerpt with
       | some e => ilikeContains e q
       | none => false))

/-- `searchPosts(query)`: join, filter by `postSearchCond`, order by
createdAt descending, unbounded, map to the with-author shape. -/
def searchPosts (db : DB) (q : String) : List PostWithAuthor :=
  ((sortDesc (fun r => r.1.createdAt)
      ((postRows db.users db.posts).filter (fun r => postSearchCond q r.1))).map
    (fun r => { toPost := r.1, author := r.2 }))

/-- The WHERE clause of `searchVideos`: published AND (title ILIKE pattern
OR description ILIKE pattern). -/
def videoSearchCond (q : String) (v : Video) : Bool :=
  v.published == some true &&
    (ilikeContains v.title q ||
      (match v.description with
       | some d => ilikeContains d q
       | none => false))

/-- `searchVideos(query)`: the video counterpart of `searchPosts`. -/
def searchVideos (db : DB) (q : String) : List VideoWithAuthor :=
  ((sortDesc (fun r => r.1.createdAt)
      ((videoRows db.users db.videos).filter (fun r => videoSearchCond q r.1))).map
    (fun r => { toVideo := r.1, author := r.2 }))

/-- `set({...post, updatedAt: new Date()})` applied to one stored row:
each supplied field overwrites the column, every other column is kept, and
updatedAt is forced to the current time. -/
def applyPostPatch (p : Post) (u : PostPatch) (now : Nat) : Post :=
  { p with
    title := u.title.getD p.title
    content := u.content.getD p.content
    excerpt := u.excerpt.getD p.excerpt
    imageUrl := u.imageUrl.getD p.imageUrl
    category := u.category.getD p.category
    tags := u.tags.getD p.tags
    authorId := u.authorId.getD p.authorId
    published := u.published.getD p.published
    updatedAt := now }

/-- `updatePost(id, post)`: UPDATE the rows whose id matches, RETURNING;
the source destructures the first returned row, undefined when none. -/
def updatePost (db : DB) (id : String) (u : PostPatch) (now : Nat) : DB × Option Post :=
  ({ db with
      posts := db.posts.map (fun p => if p.id == id then applyPostPatch p u now else p) },
   ((db.posts.filter (fun p => p.id == id)).map (fun p => applyPostPatch p u now)).head?)

/-- The video counterpart of `applyPostPatch`. -/
def applyVideoPatch (v : Video) (u : VideoPatch) (now : Nat) : Video :=
  { v with
    title := u.title.getD v.title
    description := u.description.getD v.description
    videoUrl := u.videoUrl.getD v.videoUrl
    thumbnailUrl := u.thumbnailUrl.getD v.thumbnailUrl
    category := u.category.getD v.category
    tags := u.tags.getD v.tags
    duration := u.duration.getD v.duration
    authorId := u.authorId.getD v.authorId
    published := u.published.getD v.published
    updatedAt := now }

/-- `updateVideo(id, video)`: the video counterpart of `updatePost`. -/
def updateVideo (db : DB) (id : String) (u : VideoPatch) (now : Nat) : DB × Option Video :=
  ({ db with
      videos := db.videos.map (fun v => if v.id == id then applyVideoPatch v u now else v) },
   ((db.videos.filter (fun v => v.id == id)).map (fun v => applyVideoPatch v u now)).head?)

/-- `deletePost(id)`: DELETE the rows whose id matches and report whether
the row count was positive. -/
def deletePost (db : DB) (id : String) : DB × Bool :=
  ({ db with posts := db.posts.filter (fun p => !(p.id == id)) },
   db.posts.any (fun p => p.id == id))

/-- `deleteVideo(id)`: the video counterpart of `deletePost`. -/
def deleteVideo (db : DB) (id : String) : DB × Bool :=
  ({ db with videos := db.videos.filter (fun v => !(v.id == id)) },
   db.videos.any (fun v => v.id == id))

/-- `deleteComment(id)`: the comment counterpart of `deletePost`. -/
def deleteComment (db : DB) (id : String) : DB × Bool :=
  ({ db with comments := db.comments.filter (fun c => !(c.id == id)) },
   db.comments.any (fun c => c.id == id))

/-- The row written by the insert path of `upsertUser`: omitted columns
take their defaults (role "user", defaultNow timestamps, the supplied or
generated id). -/
def insertRow (u : UpsertUser) (now : Nat) (uid : String) : User :=
  { id := uid
    email := u.email.getD none
    firstName := u.firstName.getD none
    lastName := u.lastName.getD none
    profileImageUrl := u.profileImageUrl.getD none
    role := u.role.getD (some "user")
    createdAt := u.createdAt.getD now
    updatedAt := u.updatedAt.getD now }

/-- The row written by the conflict path of `upsertUser`:
`set {...userData, updatedAt: new Date()}` - every supplied field
overwrites the stored column of `old`, updatedAt is forced to now. -/
def mergeRow (u : UpsertUser) (old : User) (now : Nat) (uid : String) : User :=
  { id := uid
    email := u.email.getD old.email
    firstName := u.firstName.getD old.firstName
    lastName := u.lastName.getD old.lastName
    profileImageUrl := u.profileImageUrl.getD old.profileImageUrl
    role := u.role.getD old.role
    createdAt := u.createdAt.getD old.createdAt
    updatedAt := now }

/-- `upsertUser(userData)`: INSERT the values, ON CONFLICT on the id
column DO UPDATE SET `{...userData, updatedAt: new Date()}`, RETURNING.
When no row carries the (supplied or generated) id the insert path runs,
otherwise the conflict path overwrites the stored row. -/
def upsertUser (db : DB) (u : UpsertUser) (now : Nat) (genId : String) : DB × User :=
  let uid := u.id.getD genId
  match db.users.find? (fun x => x.id == uid) with
  | none =>
    ({ db with users := db.users ++ [insertRow u now uid] }, insertRow u now uid)
  | some old =>
    ({ db with users := db.users.map (fun x => if x.id == uid then mergeRow u old now uid else x) },
     mergeRow u old now uid)

/-- `createComment(comment)`: INSERT the supplied values with generated id
and defaultNow timestamps, RETURNING the materialized row.  The operation
performs no validation of the postId/videoId pair. -/
def createComment (db : DB) (c : InsertComment) (now : Nat) (genId : String) : DB × Comment :=
  let row : Comment :=
    { id := genId
      content := c.content
      authorId := c.authorId
      postId := c.postId
      videoId := c.videoId
      createdAt := now
      updatedAt := now }
  ({ db with comments := db.comments ++ [row] }, row)

/-! ## Sorting lemmas -/

theorem insDesc_perm {α : Type} (key : α → Nat) (x : α) (l : List α) :
    (insDesc key x l).Perm (x :: l) := by
  induction l with
  | nil => simp [insDesc]
  | cons y ys ih =>
    simp only [insDesc]
    split
    · exact (ih.cons y).trans (List.Perm.swap x y ys)
    · exact List.Perm.refl _

theorem sortDesc_perm {α : Type} (key : α → Nat) (l : List α) :
    (sortDesc key l).Perm l := by
  induction l with
  | nil => simp [sortDesc]
  | cons x xs ih => exact (insDesc_perm key x (sortDesc key xs)).trans (ih.cons x)

theorem mem_sortDesc {α : Type} {key : α → Nat} {l : List α} {a : α} :
    a ∈ sortDesc key l ↔ a ∈ l :=
  (sortDesc_perm key l).mem_iff

theorem mem_insDesc {α : Type} {key : α → Nat} {x a : α} {l : List α} :
    a ∈ insDesc key x l ↔ a = x ∨ a ∈ l := by
  rw [(insDesc_perm key x l).mem_iff, List.mem_cons]

theorem insDesc_pairwise {α : Type} (key : α → Nat) (x : α) {l : List α}
    (h : l.Pairwise (fun a b => key b ≤ key a)) :
    (insDesc key x l).Pairwise (fun a b => key b ≤ key a) := by
  induction l with
  | nil => simp [insDesc]
  | cons y ys ih =>
    rcases List.pairwise_cons.mp h with ⟨hy, hys⟩
    simp only [insDesc]
    split
    · rename_i hxy
      refine List.pairwise_cons.mpr ⟨?_, ih hys⟩
      intro z hz
      rcases mem_insDesc.mp hz with rfl | hz'
      · exact hxy
      · exact hy z hz'
    · rename_i hxy
      push_neg at hxy
      refine List.pairwise_cons.mpr ⟨?_, h⟩
      intro z hz
      rcases List.mem_cons.mp hz with rfl | hz'
      · exact le_of_lt hxy
      · exact le_trans (hy z hz') (le_of_lt hxy)

theorem sortDesc_pairwise {α : Type} (key : α → Nat) (l : List α) :
    (sortDesc key l).Pairwise (fun a b => key b ≤ key a) := by
  induction l with
  | nil => simp [sortDesc]
  | cons x xs ih => exact insDesc_pairwise key x ih

theorem insDesc_map {α β : Type} (key : β → Nat) (f : α → β) (x : α) (l : List α) :
    insDesc key (f x) (l.map f) = (insDesc (fun a => key (f a)) x l).map f := by
  induction l with
  | nil => simp [insDesc]
  | cons y ys ih =>
    by_cases h : key (f x) ≤ key (f y) <;> simp [insDesc, h, ih]

theorem sortDesc_map {α β : Type} (key : β → Nat) (f : α → β) (l : List α) :
    sortDesc key (l.map f) = (sortDesc (fun a => key (f a)) l).map f := by
  induction l with
  | nil => rfl
  | cons x xs ih => simp [sortDesc, ih, insDesc_map]

theorem sortDesc_nodup {α : Type} (key : α → Nat) {l : List α} (h : l.Nodup) :
    (sortDesc key l).Nodup :=
  (sortDesc_perm key l).symm.nodup h

/-! ## Join lemmas -/

theorem joinAuthor_eq (us : List User) (aid : String)
    (hU : (us.map User.id).Nodup) :
    joinAuthor us aid = [findAuthor us aid] := by
  induction us with
  | nil => simp [joinAuthor, findAuthor]
  | cons u rest ih =>
    simp only [List.map_cons, List.nodup_cons] at hU
    obtain ⟨hnotin, hrest⟩ := hU
    by_cases h : u.id = aid
    · have hres : rest.filter (fun x => x.id == aid) = [] := by
        rw [List.filter_eq_nil_iff]
        intro x hx hxid
        apply hnotin
        have hxa : x.id = aid := by simpa using hxid
        rw [h, ← hxa]
        exact List.mem_map_of_mem User.id hx
      simp [joinAuthor, findAuthor, List.filter_cons, List.find?_cons, h, hres]
    · simpa [joinAuthor, findAuthor, List.filter_cons, List.find?_cons, h] using ih hrest

theorem postRows_eq (us : List User) (ps : List Post)
    (hU : (us.map User.id).Nodup) :
    postRows us ps = ps.map (fun p => (p, findAuthor us p.authorId)) := by
  induction ps with
  | nil => rfl
  | cons p rest ih => simp [postRows, joinAuthor_eq us _ hU, ih]

theorem videoRows_eq (us : List User) (vs : List Video)
    (hU : (us.map User.id).Nodup) :
    videoRows us vs = vs.map (fun v => (v, findAuthor us v.authorId)) := by
  induction vs with
  | nil => rfl
  | cons v rest ih => simp [videoRows, joinAuthor_eq us _ hU, ih]

theorem postRows_filter (us : List User) (ps : List Post) (pr : Post → Bool) :
    (postRows us ps).filter (fun r => pr r.1) = postRows us (ps.filter pr) := by
  induction ps with
  | nil => rfl
  | cons p rest ih =>
    simp only [postRows, List.filter_append, ih, List.filter_cons]
    by_cases h : pr p
    · simp [h, postRows, List.filter_map, Function.comp_def]
    · simp [h, List.filter_map, Function.comp_def]

theorem videoRows_filter (us : List User) (vs : List Video) (pr : Video → Bool) :
    (videoRows us vs).filter (fun r => pr r.1) = videoRows us (vs.filter pr) := by
  induction vs with
  | nil => rfl
  | cons v rest ih =>
    simp only [videoRows, List.filter_append, ih, List.filter_cons]
    by_cases h : pr v
    · simp [h, videoRows, List.filter_map, Function.comp_def]
    · simp [h, List.filter_map, Function.comp_def]

theorem filter_key_eq {α : Type} (f : α → String) {l : List α} {x : α} {i : String}
    (hN : (l.map f).Nodup) (hx : x ∈ l) (hi : f x = i) :
    l.filter (fun y => f y == i) = [x] := by
  induction l with
  | nil => cases hx
  | cons a rest ih =>
    simp only [List.map_cons, List.nodup_cons] at hN
    obtain ⟨hnotin, hrest⟩ := hN
    rcases List.mem_cons.mp hx with rfl | hmem
    · have hres : rest.filter (fun y => f y == i) = [] := by
        rw [List.filter_eq_nil_iff]
        intro y hy hyi
        apply hnotin
        have hya : f y = i := by simpa using hyi
        rw [hi, ← hya]
        exact List.mem_map_of_mem f hy
      simp [List.filter_cons, hi, hres]
    · have hfa : ¬(f a = i) := by
        intro hcon
        apply hnotin
        rw [hcon, ← hi]
        exact List.mem_map_of_mem f hmem
      simp [List.filter_cons, hfa, ih hrest hmem]

/-! ## Characterization of the list operations under unique user ids -/

theorem getPosts_eq (db : DB) (limit offset : Nat)
    (hU : (db.users.map User.id).Nodup) :
    getPosts db limit offset =
      (((sortDesc (fun p => p.createdAt)
          (db.posts.filter (fun p => p.published == some true))).drop offset).take limit).map
        (mkPA db.users) := by
  unfold getPosts
  rw [postRows_eq db.users db.posts hU, List.filter_map, sortDesc_map]
  simp only [Function.comp_def]
  rw [← List.map_drop, ← List.map_take, List.map_map]
  rfl

theorem getVideos_eq (db : DB) (limit offset : Nat)
    (hU : (db.users.map User.id).Nodup) :
    getVideos db limit offset =
      (((sortDesc (fun v => v.createdAt)
          (db.videos.filter (fun v => v.published == some true))).drop offset).take limit).map
        (mkVA db.users) := by
  unfold getVideos
  rw [videoRows_eq db.users db.videos hU, List.filter_map, sortDesc_map]
  simp only [Function.comp_def]
  rw [← List.map_drop, ← List.map_take, List.map_map]
  rfl

theorem searchPosts_eq (db : DB) (q : String)
    (hU : (db.users.map User.id).Nodup) :
    searchPosts db q =
      (sortDesc (fun p => p.createdAt)
        (db.posts.filter (postSearchCond q))).map (mkPA db.users) := by
  unfold searchPosts
  rw [postRows_eq db.users db.posts hU, List.filter_map, sortDesc_map]
  simp only [Function.comp_def]
  rw [List.map_map]
  rfl

theorem searchVideos_eq (db : DB) (q : String)
    (hU : (db.users.map User.id).Nodup) :
    searchVideos db q =
      (sortDesc (fun v => v.createdAt)
        (db.videos.filter (videoSearchCond q))).map (mkVA db.users) := by
  unfold searchVideos
  rw [videoRows_eq db.users db.videos hU, List.filter_map, sortDesc_map]
  simp only [Function.comp_def]
  rw [List.map_map]
  rfl

/-! ## LIKE pattern matching versus substring containment -/

theorem likeMatch_nil (s : List Char) : likeMatch [] s = s.isEmpty := rfl

theorem likeMatch_pct (ps s : List Char) :
    likeMatch ('%' :: ps) s = s.tails.any (fun t => likeMatch ps t) := by
  simp only [likeMatch]

theorem likeMatch_lit_nil (p : Char) (ps : List Char)
    (h1 : ¬(p = '%')) (h2 : ¬(p = '_')) (h3 : ¬(p = '\\')) :
    likeMatch (p :: ps) [] = false := by
  simp [likeMatch, h1, h2, h3]

theorem likeMatch_lit_cons (p : Char) (ps : List Char) (c : Char) (s : List Char)
    (h1 : ¬(p = '%')) (h2 : ¬(p = '_')) (h3 : ¬(p = '\\')) :
    likeMatch (p :: ps) (c :: s) = (p == c && likeMatch ps s) := by
  simp [likeMatch, h1, h2, h3]

theorem likeMatch_pct_any (s : List Char) : likeMatch ['%'] s = true := by
  induction s with
  | nil => rfl
  | cons c t ih =>
    rw [likeMatch_pct] at ih ⊢
    simp only [List.tails_cons, List.any_cons, ih, Bool.or_true]

theorem startsWith_nil_right (q : List Char) : startsWith q [] = q.isEmpty := by
  cases q <;> rfl

theorem plainChar_spec {c : Char} (h : plainChar c = true) :
    ¬(c = '%') ∧ ¬(c = '_') ∧ ¬(c = '\\') := by
  simp only [plainChar, Bool.not_eq_eq_eq_not, Bool.not_true, Bool.or_eq_false_iff,
    beq_eq_false_iff_ne, ne_eq] at h
  exact ⟨h.1.1, h.1.2, h.2⟩

theorem plainChar_toLower (c : Char) (h : plainChar c = true) : plainChar c.toLower = true := by
  by_cases hc : c.toNat ≥ 65 ∧ c.toNat ≤ 90
  · have hlow : c.toLower = Char.ofNat (c.toNat + 32) := by
      unfold Char.toLower
      simp [hc]
    rw [hlow]
    obtain ⟨h1, h2⟩ := hc
    set n := c.toNat with hn
    interval_cases n <;> decide
  · have hlow : c.toLower = c := by
      unfold Char.toLower
      simp [hc]
    rw [hlow]
    exact h

theorem likeMatch_plain_pct (q : List Char) (hq : q.all plainChar = true) (s : List Char) :
    likeMatch (q ++ ['%']) s = startsWith q s := by
  induction q generalizing s with
  | nil => simp [likeMatch_pct_any, startsWith]
  | cons c q' ih =>
    simp only [List.all_cons, Bool.and_eq_true] at hq
    obtain ⟨hc, hq'⟩ := hq
    obtain ⟨h1, h2, h3⟩ := plainChar_spec hc
    cases s with
    | nil =>
      rw [startsWith_nil_right]
      simp only [List.isEmpty_cons]
      rw [List.cons_append, likeMatch_lit_nil _ _ h1 h2 h3]
    | cons d s' =>
      rw [List.cons_append, likeMatch_lit_cons _ _ _ _ h1 h2 h3]
      simp only [startsWith]
      rw [ih hq']

theorem hasSub_eq_any (q s : List Char) :
    hasSub q s = s.tails.any (fun t => startsWith q t) := by
  induction s with
  | nil => simp [hasSub, startsWith_nil_right]
  | cons c t ih => simp only [hasSub, List.tails_cons, List.any_cons, ih]

theorem lowerL_plain {q : List Char} (h : q.all plainChar = true) :
    (lowerL q).all plainChar = true := by
  rw [lowerL, List.all_map, List.all_eq_true]
  rw [List.all_eq_true] at h
  intro c hc
  exact plainChar_toLower c (h c hc)

theorem ilike_eq_ci (f q : String) (hq : q.data.all plainChar = true) :
    ilikeContains f q = ciContains f q := by
  unfold ilikeContains ciContains
  rw [List.cons_append, likeMatch_pct, hasSub_eq_any]
  simp only [likeMatch_plain_pct (lowerL q.data) (lowerL_plain hq)]

theorem startsWith_self_nil (s : List Char) : startsWith [] s = true := rfl

theorem hasSub_empty (s : List Char) : hasSub [] s = true := by
  induction s with
  | nil => rfl
  | cons c t ih => simp [hasSub, startsWith_self_nil]

theorem ciContains_empty (f : String) : ciContains f "" = true := by
  unfold ciContains
  simp [lowerL, hasSub_empty]

/-! ## Small helper lemmas about rows -/

theorem mem_postRows {us : List User} {ps : List Post} {r : Post × Option User}
    (h : r ∈ postRows us ps) : r.1 ∈ ps := by
  induction ps with
  | nil => cases h
  | cons p rest ih =>
    rcases List.mem_append.mp h with h1 | h2
    · rcases List.mem_map.mp h1 with ⟨a, _, rfl⟩
      exact List.mem_cons_self p rest
    · exact List.mem_cons_of_mem p (ih h2)

theorem mem_videoRows {us : List User} {vs : List Video} {r : Video × Option User}
    (h : r ∈ videoRows us vs) : r.1 ∈ vs := by
  induction vs with
  | nil => cases h
  | cons v rest ih =>
    rcases List.mem_append.mp h with h1 | h2
    · rcases List.mem_map.mp h1 with ⟨a, _, rfl⟩
      exact List.mem_cons_self v rest
    · exact List.mem_cons_of_mem v (ih h2)

theorem joinAuthor_none (us : List User) (aid : String)
    (h : ∀ u ∈ us, ¬(u.id = aid)) : joinAuthor us aid = [none] := by
  have hfil : us.filter (fun u => u.id == aid) = [] := by
    rw [List.filter_eq_nil_iff]
    intro u hu hua
    exact h u hu (by simpa using hua)
  unfold joinAuthor
  rw [hfil]

/-! ## Example rows used by the concrete witnesses -/

def exU1 : User :=
  { id := "u1"
    email := some "ada@example.com"
    firstName := some "Ada"
    lastName := none
    profileImageUrl := none
    role := some "author"
    createdAt := 1
    updatedAt := 1 }

def exU2 : User :=
  { id := "u2"
    email := none
    firstName := none
    lastName := none
    profileImageUrl := none
    role := some "user"
    createdAt := 2
    updatedAt := 2 }

def exP1 : Post :=
  { id := "p1"
    title := "hello"
    content := "body one"
    excerpt := none
    imageUrl := none
    category := "tech"
    tags := some ["a"]
    authorId := "u1"
    published := some true
    createdAt := 10
    updatedAt := 10 }

def exP2 : Post :=
  { id := "p2"
    title := "second"
    content := "body two"
    excerpt := some "teaser"
    imageUrl := none
    category := "life"
    tags := none
    authorId := "u2"
    published := some true
    createdAt := 20
    updatedAt := 20 }

def exP3 : Post :=
  { id := "p3"
    title := "draft"
    content := "hidden"
    excerpt := none
    imageUrl := none
    category := "tech"
    tags := none
    authorId := "u1"
    published := some false
    createdAt := 30
    updatedAt := 30 }

def exV1 : Video :=
  { id := "v1"
    title := "intro"
    description := some "welcome"
    videoUrl := "http-v1"
    thumbnailUrl := none
    category := "tech"
    tags := none
    duration := some "01:00"
    authorId := "u1"
    published := some true
    createdAt := 11
    updatedAt := 11 }

def exV2 : Video :=
  { id := "v2"
    title := "talk"
    description := none
    videoUrl := "http-v2"
    thumbnailUrl := none
    category := "life"
    tags := none
    duration := none
    authorId := "u2"
    published := some true
    createdAt := 21
    updatedAt := 21 }

def exV3 : Video :=
  { id := "v3"
    title := "secret"
    description := none
    videoUrl := "http-v3"
    thumbnailUrl := none
    category := "tech"
    tags := none
    duration := none
    authorId := "u1"
    published := some false
    createdAt := 31
    updatedAt := 31 }

def exC1 : Comment :=
  { id := "c1"
    content := "nice"
    authorId := "u2"
    postId := some "p1"
    videoId := none
    createdAt := 40
    updatedAt := 40 }

def exDB : DB :=
  { users := [exU1, exU2]
    posts := [exP1, exP2, exP3]
    videos := [exV1, exV2, exV3]
    comments := [exC1] }

/-! ## Claims -/

/-- C10: `createComment` inserts the supplied row as given and returns it,
with no validation of the postId/videoId pair: for every input value,
including both references set or neither set, the stored row and the
returned row carry exactly the supplied content, authorId, postId and
videoId, the row is appended to the comments table, and no other table is
touched. -/
theorem C10_createComment_no_validation (db : DB) (c : InsertComment) (now : Nat)
    (genId : String) :
    ((createComment db c now genId).2.postId = c.postId) ∧
    ((createComment db c now genId).2.videoId = c.videoId) ∧
    ((createComment db c now genId).2.content = c.content) ∧
    ((createComment db c now genId).2.authorId = c.authorId) ∧
    ((createComment db c now genId).1.comments =
      db.comments ++ [(createComment db c now genId).2]) ∧
    ((createComment db c now genId).1.posts = db.posts) ∧
    ((createComment db c now genId).1.videos = db.videos) ∧
    ((createComment db c now genId).1.users = db.users) :=
  ⟨rfl, rfl, rfl, rfl, rfl, rfl, rfl, rfl⟩

/-- C5: each delete reports via its boolean exactly whether a row with the
id existed: the first delete of an existing id returns true, a second
delete of the same id returns false, point lookups of a deleted id return
none, and a missing id yields false rather than a failure.  Holds for
deletePost, deleteVideo and deleteComment. -/
theorem C5_delete_reports_existence (db : DB) (i : String) :
    ((deletePost db i).2 = true ↔ ∃ p ∈ db.posts, p.id = i) ∧
    ((deletePost (deletePost db i).1 i).2 = false) ∧
    (getPost (deletePost db i).1 i = none) ∧
    ((deleteVideo db i).2 = true ↔ ∃ v ∈ db.videos, v.id = i) ∧
    ((deleteVideo (deleteVideo db i).1 i).2 = false) ∧
    (getVideo (deleteVideo db i).1 i = none) ∧
    ((deleteComment db i).2 = true ↔ ∃ c ∈ db.comments, c.id = i) ∧
    ((deleteComment (deleteComment db i).1 i).2 = false) := by
  refine ⟨?_, ?_, ?_, ?_, ?_, ?_, ?_, ?_⟩
  · simp [deletePost, List.any_eq_true]
  · rw [deletePost, List.any_eq_false]
    intro x hx
    simp only [deletePost, List.mem_filter] at hx
    simpa using hx.2
  · have hnil : (postRows (deletePost db i).1.users ((deletePost db i).1.posts)).filter
        (fun r => r.1.id == i) = [] := by
      rw [List.filter_eq_nil_iff]
      intro r hr hri
      have hmem := mem_postRows hr
      simp only [deletePost, List.mem_filter] at hmem
      have : ¬(r.1.id == i) = true := by simpa using hmem.2
      exact this hri
    rw [getPost, hnil]
    rfl
  · simp [deleteVideo, List.any_eq_true]
  · rw [deleteVideo, List.any_eq_false]
    intro x hx
    simp only [deleteVideo, List.mem_filter] at hx
    simpa using hx.2
  · have hnil : (videoRows (deleteVideo db i).1.users ((deleteVideo db i).1.videos)).filter
        (fun r => r.1.id == i) = [] := by
      rw [List.filter_eq_nil_iff]
      intro r hr hri
      have hmem := mem_videoRows hr
      simp only [deleteVideo, List.mem_filter] at hmem
      have : ¬(r.1.id == i) = true := by simpa using hmem.2
      exact this hri
    rw [getVideo, hnil]
    rfl
  · simp [deleteComment, List.any_eq_true]
  · rw [deleteComment, List.any_eq_false]
    intro x hx
    simp only [deleteComment, List.mem_filter] at hx
    simpa using hx.2

/-- The statement of claim C2 at a given store and id. -/
def C2Prop (db : DB) (i : String) : Prop :=
  (∀ p ∈ db.posts, p.id = i → getPost db i = some (mkPA db.users p)) ∧
  ((∀ p ∈ db.posts, ¬(p.id = i)) → getPost db i = none) ∧
  (∀ v ∈ db.videos, v.id = i → getVideo db i = some (mkVA db.users v)) ∧
  ((∀ v ∈ db.videos, ¬(v.id = i)) → getVideo db i = none)

/-- C2: `getPost` and `getVideo` apply no publish gate: when a row with
the id exists it is returned joined with its author whatever its
published value, and when no row matches the result is none rather than a
failure. -/
theorem C2_point_lookup_no_publish_gate (db : DB) (i : String)
    (hU : (db.users.map User.id).Nodup)
    (hP : (db.posts.map Post.id).Nodup)
    (hV : (db.videos.map Video.id).Nodup) :
    C2Prop db i := by
  refine ⟨?_, ?_, ?_, ?_⟩
  · intro p hp hpi
    rw [getPost, postRows_filter db.users db.posts (fun p => p.id == i),
      filter_key_eq Post.id hP hp hpi]
    rw [postRows, joinAuthor_eq db.users p.authorId hU]
    rfl
  · intro h
    have hnil : (postRows db.users db.posts).filter (fun r => r.1.id == i) = [] := by
      rw [List.filter_eq_nil_iff]
      intro r hr hri
      exact h r.1 (mem_postRows hr) (by simpa using hri)
    rw [getPost, hnil]
    rfl
  · intro v hv hvi
    rw [getVideo, videoRows_filter db.users db.videos (fun v => v.id == i),
      filter_key_eq Video.id hV hv hvi]
    rw [videoRows, joinAuthor_eq db.users v.authorId hU]
    rfl
  · intro h
    have hnil : (videoRows db.users db.videos).filter (fun r => r.1.id == i) = [] := by
      rw [List.filter_eq_nil_iff]
      intro r hr hri
      exact h r.1 (mem_videoRows hr) (by simpa using hri)
    rw [getVideo, hnil]
    rfl

/-- C2 witness: the unpublished post p3 and video v3 of the example store
are still returned by the point lookups, and a missing id gives none. -/
theorem C2_point_lookup_no_publish_gate_witness :
    ((exDB.users.map User.id).Nodup ∧ (exDB.posts.map Post.id).Nodup ∧
      (exDB.videos.map Video.id).Nodup) ∧ C2Prop exDB "p3" :=
  ⟨⟨by decide, by decide, by decide⟩,
   C2_point_lookup_no_publish_gate exDB "p3" (by decide) (by decide) (by decide)⟩

/-! Orphaned rows: entity rows whose authorId matches no user row. -/

def orphanP : Post :=
  { id := "p0"
    title := "lost"
    content := "orphan body"
    excerpt := none
    imageUrl := none
    category := "tech"
    tags := none
    authorId := "ghost"
    published := some true
    createdAt := 7
    updatedAt := 7 }

def orphanV : Video :=
  { id := "v0"
    title := "lost clip"
    description := none
    videoUrl := "http-v0"
    thumbnailUrl := none
    category := "tech"
    tags := none
    duration := none
    authorId := "ghost"
    published := some true
    createdAt := 8
    updatedAt := 8 }

def orphanDB : DB :=
  { users := []
    posts := [orphanP]
    videos := [orphanV]
    comments := [] }

/-- C8 counterexample: on a store holding an orphaned post and video
(authorId "ghost", no user rows at all), every read completes normally
and returns the entity with an absent author - no internal consistency
error is raised anywhere, because the `row.users!` assertion is erased at
runtime.  This falsifies the claim that the mapping step fails loudly. -/
theorem C8_counterexample :
    getPost orphanDB "p0" = some { toPost := orphanP, author := none } ∧
    getPosts orphanDB = [{ toPost := orphanP, author := none }] ∧
    getVideo orphanDB "v0" = some { toVideo := orphanV, author := none } ∧
    getVideos orphanDB = [{ toVideo := orphanV, author := none }] := by
  refine ⟨by decide, by decide, by decide, by decide⟩

/-- The statement of the amended claim C8 at a store with an orphaned post
and video. -/
def C8Prop (db : DB) (p : Post) (v : Video) : Prop :=
  (getPost db p.id = some { toPost := p, author := none }) ∧
  (getVideo db v.id = some { toVideo := v, author := none })

/-- C8 amended: the mapping step never raises at runtime - the non-null
author assertion is compile-time only.  For every store and every orphaned
entity row (no user carries its authorId), the point lookup completes and
returns the row with an absent author silently substituted. -/
theorem C8_orphan_author_silent (db : DB) (p : Post) (v : Video)
    (hP : (db.posts.map Post.id).Nodup)
    (hV : (db.videos.map Video.id).Nodup)
    (hp : p ∈ db.posts) (hv : v ∈ db.videos)
    (hgp : ∀ u ∈ db.users, ¬(u.id = p.authorId))
    (hgv : ∀ u ∈ db.users, ¬(u.id = v.authorId)) :
    C8Prop db p v := by
  constructor
  · rw [getPost, postRows_filter db.users db.posts (fun q => q.id == p.id),
      filter_key_eq Post.id hP hp rfl]
    rw [postRows, joinAuthor_none db.users p.authorId hgp]
    rfl
  · rw [getVideo, videoRows_filter db.users db.videos (fun w => w.id == v.id),
      filter_key_eq Video.id hV hv rfl]
    rw [videoRows, joinAuthor_none db.users v.authorId hgv]
    rfl

/-- C8 witness: the amended theorem applied to the orphan store. -/
theorem C8_orphan_author_silent_witness :
    ((orphanDB.posts.map Post.id).Nodup ∧ (orphanDB.videos.map Video.id).Nodup ∧
      orphanP ∈ orphanDB.posts ∧ orphanV ∈ orphanDB.videos ∧
      (∀ u ∈ orphanDB.users, ¬(u.id = orphanP.authorId)) ∧
      (∀ u ∈ orphanDB.users, ¬(u.id = orphanV.authorId))) ∧
    C8Prop orphanDB orphanP orphanV :=
  ⟨⟨by decide, by decide, by decide, by decide, by decide, by decide⟩,
   C8_orphan_author_silent orphanDB orphanP orphanV (by decide) (by decide)
     (by decide) (by decide) (by decide) (by decide)⟩

/-- The statement of claim C1 at a given store, limit and offset. -/
def C1Prop (db : DB) (limit offset : Nat) : Prop :=
  (∀ r ∈ getPosts db limit offset, r.published = some true) ∧
  ((getPosts db limit offset).length ≤ limit) ∧
  ((getPosts db limit offset).Pairwise (fun a b => b.createdAt ≤ a.createdAt)) ∧
  (getPosts db limit offset =
    (((sortDesc (fun p => p.createdAt)
        (db.posts.filter (fun p => p.published == some true))).drop offset).take limit).map
      (mkPA db.users)) ∧
  (getPosts db = getPosts db 20 0) ∧
  (∀ r ∈ getVideos db limit offset, r.published = some true) ∧
  ((getVideos db limit offset).length ≤ limit) ∧
  ((getVideos db limit offset).Pairwise (fun a b => b.createdAt ≤ a.createdAt)) ∧
  (getVideos db limit offset =
    (((sortDesc (fun v => v.createdAt)
        (db.videos.filter (fun v => v.published == some true))).drop offset).take limit).map
      (mkVA db.users)) ∧
  (getVideos db = getVideos db 20 0)

/-- C1: `getPosts` and `getVideos` return only published rows, ordered by
createdAt descending, at most limit of them, and they are exactly the
window of that ordering that skips the first offset entries; the limit
and offset default to 20 and 0. -/
theorem C1_pagination_published (db : DB) (limit offset : Nat)
    (hU : (db.users.map User.id).Nodup) :
    C1Prop db limit offset := by
  have hpe := getPosts_eq db limit offset hU
  have hve := getVideos_eq db limit offset hU
  refine ⟨?_, ?_, ?_, hpe, rfl, ?_, ?_, ?_, hve, rfl⟩
  · intro r hr
    rw [hpe] at hr
    rcases List.mem_map.mp hr with ⟨p, hp, rfl⟩
    have hps : p ∈ sortDesc (fun p => p.createdAt)
        (db.posts.filter (fun p => p.published == some true)) :=
      (List.drop_sublist offset _).subset ((List.take_sublist limit _).subset hp)
    have := (List.mem_filter.mp (mem_sortDesc.mp hps)).2
    simpa [mkPA] using this
  · rw [hpe, List.length_map]
    exact List.length_take_le limit _
  · rw [hpe]
    have hsorted := sortDesc_pairwise (fun p => p.createdAt)
      (db.posts.filter (fun p => p.published == some true))
    have hsub : ((sortDesc (fun p => p.createdAt)
        (db.posts.filter (fun p => p.published == some true))).drop offset).take limit
          |>.Pairwise (fun a b => b.createdAt ≤ a.createdAt) :=
      List.Pairwise.sublist ((List.take_sublist limit _).trans (List.drop_sublist offset _))
        hsorted
    exact hsub.map (mkPA db.users) (fun a b h => h)
  · intro r hr
    rw [hve] at hr
    rcases List.mem_map.mp hr with ⟨v, hv, rfl⟩
    have hvs : v ∈ sortDesc (fun v => v.createdAt)
        (db.videos.filter (fun v => v.published == some true)) :=
      (List.drop_sublist offset _).subset ((List.take_sublist limit _).subset hv)
    have := (List.mem_filter.mp (mem_sortDesc.mp hvs)).2
    simpa [mkVA] using this
  · rw [hve, List.length_map]
    exact List.length_take_le limit _
  · rw [hve]
    have hsorted := sortDesc_pairwise (fun v => v.createdAt)
      (db.videos.filter (fun v => v.published == some true))
    have hsub : ((sortDesc (fun v => v.createdAt)
        (db.videos.filter (fun v => v.published == some true))).drop offset).take limit
          |>.Pairwise (fun a b => b.createdAt ≤ a.createdAt) :=
      List.Pairwise.sublist ((List.take_sublist limit _).trans (List.drop_sublist offset _))
        hsorted
    exact hsub.map (mkVA db.users) (fun a b h => h)

/-- C1 witness: the theorem applied to the example store with limit 1 and
offset 1. -/
theorem C1_pagination_published_witness :
    ((exDB.users.map User.id).Nodup) ∧ C1Prop exDB 1 1 :=
  ⟨by decide, C1_pagination_published exDB 1 1 (by decide)⟩

/-- The statement of claim C7 at a given store and page size. -/
def C7Prop (db : DB) (k : Nat) : Prop :=
  (getPosts db k 0 ++ getPosts db k k =
    ((sortDesc (fun p => p.createdAt)
        (db.posts.filter (fun p => p.published == some true))).take (k + k)).map
      (mkPA db.users)) ∧
  (∀ r ∈ getPosts db k 0, ¬(r ∈ getPosts db k k)) ∧
  (∀ p ∈ db.posts, p.published = some true →
    (mkPA db.users p ∈ getPosts db k 0 ++ getPosts db k k ∨
      p ∈ (sortDesc (fun p => p.createdAt)
        (db.posts.filter (fun p => p.published == some true))).drop (k + k))) ∧
  ((getPosts db k 0 ++ getPosts db k k).Pairwise (fun a b => b.createdAt ≤ a.createdAt)) ∧
  (getVideos db k 0 ++ getVideos db k k =
    ((sortDesc (fun v => v.createdAt)
        (db.videos.filter (fun v => v.published == some true))).take (k + k)).map
      (mkVA db.users)) ∧
  (∀ r ∈ getVideos db k 0, ¬(r ∈ getVideos db k k)) ∧
  (∀ v ∈ db.videos, v.published = some true →
    (mkVA db.users v ∈ getVideos db k 0 ++ getVideos db k k ∨
      v ∈ (sortDesc (fun v => v.createdAt)
        (db.videos.filter (fun v => v.published == some true))).drop (k + k))) ∧
  ((getVideos db k 0 ++ getVideos db k k).Pairwise (fun a b => b.createdAt ≤ a.createdAt))

/-- C7: two consecutive pages of size k cover exactly the first 2k entries
of the published rows in createdAt-descending order: no row appears in
both pages, every published row is either in the two pages or beyond the
covered window, and the concatenation of the pages is still ordered. -/
theorem C7_pages_partition (db : DB) (k : Nat)
    (hU : (db.users.map User.id).Nodup)
    (hP : (db.posts.map Post.id).Nodup)
    (hV : (db.videos.map Video.id).Nodup) :
    C7Prop db k := by
  have hp0 := getPosts_eq db k 0 hU
  have hp1 := getPosts_eq db k k hU
  have hv0 := getVideos_eq db k 0 hU
  have hv1 := getVideos_eq db k k hU
  have hpnd : (sortDesc (fun p => p.createdAt)
      (db.posts.filter (fun p => p.published == some true))).Nodup :=
    sortDesc_nodup _ (List.Nodup.filter _ (List.Nodup.of_map Post.id hP))
  have hvnd : (sortDesc (fun v => v.createdAt)
      (db.videos.filter (fun v => v.published == some true))).Nodup :=
    sortDesc_nodup _ (List.Nodup.filter _ (List.Nodup.of_map Video.id hV))
  have hpa : getPosts db k 0 ++ getPosts db k k =
      ((sortDesc (fun p => p.createdAt)
          (db.posts.filter (fun p => p.published == some true))).take (k + k)).map
        (mkPA db.users) := by
    rw [hp0, hp1, List.drop_zero, ← List.map_append, ← List.take_add]
  have hva : getVideos db k 0 ++ getVideos db k k =
      ((sortDesc (fun v => v.createdAt)
          (db.videos.filter (fun v => v.published == some true))).take (k + k)).map
        (mkVA db.users) := by
    rw [hv0, hv1, List.drop_zero, ← List.map_append, ← List.take_add]
  refine ⟨hpa, ?_, ?_, ?_, hva, ?_, ?_, ?_⟩
  · intro r h0 h1
    rw [hp0] at h0
    rw [hp1] at h1
    rcases List.mem_map.mp h0 with ⟨p, hpmem, rfl⟩
    rcases List.mem_map.mp h1 with ⟨p', hpmem', heq⟩
    have hpp : p' = p := congrArg PostWithAuthor.toPost heq
    rw [hpp] at hpmem'
    rw [List.drop_zero] at hpmem
    have hin0 : p ∈ (sortDesc (fun p => p.createdAt)
        (db.posts.filter (fun p => p.published == some true))).take k := hpmem
    have hin1 : p ∈ (sortDesc (fun p => p.createdAt)
        (db.posts.filter (fun p => p.published == some true))).drop k :=
      (List.take_sublist k _).subset hpmem'
    exact List.disjoint_take_drop hpnd (le_refl k) hin0 hin1
  · intro p hp hpub
    have hps : p ∈ sortDesc (fun p => p.createdAt)
        (db.posts.filter (fun p => p.published == some true)) :=
      mem_sortDesc.mpr (List.mem_filter.mpr ⟨hp, by simp [hpub]⟩)
    rw [← List.take_append_drop (k + k) (sortDesc (fun p => p.createdAt)
      (db.posts.filter (fun p => p.published == some true)))] at hps
    rcases List.mem_append.mp hps with h | h
    · left
      rw [hpa]
      exact List.mem_map_of_mem (mkPA db.users) h
    · right
      exact h
  · rw [hpa]
    have hsorted := sortDesc_pairwise (fun p => p.createdAt)
      (db.posts.filter (fun p => p.published == some true))
    exact (List.Pairwise.sublist (List.take_sublist (k + k) _) hsorted).map
      (mkPA db.users) (fun a b h => h)
  · intro r h0 h1
    rw [hv0] at h0
    rw [hv1] at h1
    rcases List.mem_map.mp h0 with ⟨v, hvmem, rfl⟩
    rcases List.mem_map.mp h1 with ⟨v', hvmem', heq⟩
    have hvv : v' = v := congrArg VideoWithAuthor.toVideo heq
    rw [hvv] at hvmem'
    rw [List.drop_zero] at hvmem
    have hin0 : v ∈ (sortDesc (fun v => v.createdAt)
        (db.videos.filter (fun v => v.published == some true))).take k := hvmem
    have hin1 : v ∈ (sortDesc (fun v => v.createdAt)
        (db.videos.filter (fun v => v.published == some true))).drop k :=
      (List.take_sublist k _).subset hvmem'
    exact List.disjoint_take_drop hvnd (le_refl k) hin0 hin1
  · intro v hv hpub
    have hvs : v ∈ sortDesc (fun v => v.createdAt)
        (db.videos.filter (fun v => v.published == some true)) :=
      mem_sortDesc.mpr (List.mem_filter.mpr ⟨hv, by simp [hpub]⟩)
    rw [← List.take_append_drop (k + k) (sortDesc (fun v => v.createdAt)
      (db.videos.filter (fun v => v.published == some true)))] at hvs
    rcases List.mem_append.mp hvs with h | h
    · left
      rw [hva]
      exact List.mem_map_of_mem (mkVA db.users) h
    · right
      exact h
  · rw [hva]
    have hsorted := sortDesc_pairwise (fun v => v.createdAt)
      (db.videos.filter (fun v => v.published == some true))
    exact (List.Pairwise.sublist (List.take_sublist (k + k) _) hsorted).map
      (mkVA db.users) (fun a b h => h)

/-- C7 witness: the theorem applied to the example store with page size 1. -/
theorem C7_pages_partition_witness :
    ((exDB.users.map User.id).Nodup ∧ (exDB.posts.map Post.id).Nodup ∧
      (exDB.videos.map Video.id).Nodup) ∧ C7Prop exDB 1 :=
  ⟨⟨by decide, by decide, by decide⟩,
   C7_pages_partition exDB 1 (by decide) (by decide) (by decide)⟩

/-! ## C3: search -/

/-- Modelled from the spec: the search predicate as the specification
words it for posts - the query case-insensitively substring-matches any
of title, content, excerpt. -/
def specPostMatch (q : String) (p : Post) : Bool :=
  ciContains p.title q || ciContains p.content q ||
    (match p.excerpt with
     | some e => ciContains e q
     | none => false)

/-- Modelled from the spec: the search predicate as the specification
words it for videos - the query case-insensitively substring-matches any
of title, description. -/
def specVideoMatch (q : String) (v : Video) : Bool :=
  ciContains v.title q ||
    (match v.description with
     | some d => ciContains d q
     | none => false)

/-- C3 counterexample: searching the example store for the single
character "_" returns the published post p1 and the published video v1,
although "_" is not a case-insensitive substring of any of their searched
fields (Postgres ILIKE reads "_" as the any-one-character wildcard).
This falsifies the claim that searchX returns exactly the entities with a
substring match. -/
theorem C3_counterexample :
    (mkPA exDB.users exP1 ∈ searchPosts exDB "_") ∧
    ciContains exP1.title "_" = false ∧
    ciContains exP1.content "_" = false ∧
    exP1.excerpt = none ∧
    exP1.published = some true ∧
    (mkVA exDB.users exV1 ∈ searchVideos exDB "_") ∧
    ciContains exV1.title "_" = false ∧
    (exV1.description.map (fun d => ciContains d "_")) = some false ∧
    exV1.published = some true := by
  refine ⟨by decide, by decide, by decide, by decide, by decide,
    by decide, by decide, by decide, by decide⟩

/-- The statement of the amended claim C3 at a given store and query. -/
def C3Prop (db : DB) (q : String) : Prop :=
  (searchPosts db q =
    (sortDesc (fun p => p.createdAt)
      (db.posts.filter (fun p => p.published == some true && specPostMatch q p))).map
        (mkPA db.users)) ∧
  ((searchPosts db q).Pairwise (fun a b => b.createdAt ≤ a.createdAt)) ∧
  (searchVideos db q =
    (sortDesc (fun v => v.createdAt)
      (db.videos.filter (fun v => v.published == some true && specVideoMatch q v))).map
        (mkVA db.users)) ∧
  ((searchVideos db q).Pairwise (fun a b => b.createdAt ≤ a.createdAt)) ∧
  (searchPosts db "" =
    (sortDesc (fun p => p.createdAt)
      (db.posts.filter (fun p => p.published == some true))).map (mkPA db.users)) ∧
  (searchVideos db "" =
    (sortDesc (fun v => v.createdAt)
      (db.videos.filter (fun v => v.published == some true))).map (mkVA db.users))

theorem postSearchCond_eq_spec (q : String) (hq : q.data.all plainChar = true) (p : Post) :
    postSearchCond q p = (p.published == some true && specPostMatch q p) := by
  unfold postSearchCond specPostMatch
  rw [ilike_eq_ci p.title q hq, ilike_eq_ci p.content q hq]
  cases p.excerpt with
  | none => rfl
  | some e => simp [ilike_eq_ci e q hq]

theorem videoSearchCond_eq_spec (q : String) (hq : q.data.all plainChar = true) (v : Video) :
    videoSearchCond q v = (v.published == some true && specVideoMatch q v) := by
  unfold videoSearchCond specVideoMatch
  rw [ilike_eq_ci v.title q hq]
  cases v.description with
  | none => rfl
  | some d => simp [ilike_eq_ci d q hq]

theorem specPostMatch_empty (p : Post) : specPostMatch "" p = true := by
  unfold specPostMatch
  rw [ciContains_empty]
  rfl

theorem specVideoMatch_empty (v : Video) : specVideoMatch "" v = true := by
  unfold specVideoMatch
  rw [ciContains_empty]
  rfl

/-- C3 amended: for every query free of the LIKE wildcard and escape
characters percent, underscore and backslash, searchPosts and searchVideos
return exactly the published rows one of whose searched text fields
case-insensitively contains the query, ordered by createdAt descending,
and the empty query returns every published row.  (For queries containing
those characters ILIKE wildcard semantics apply instead, see the
counterexample.) -/
theorem C3_search_substring (db : DB) (q : String)
    (hq : q.data.all plainChar = true)
    (hU : (db.users.map User.id).Nodup) :
    C3Prop db q := by
  have hempty : ("".data.all plainChar) = true := by decide
  have hps : searchPosts db q =
      (sortDesc (fun p => p.createdAt)
        (db.posts.filter (fun p => p.published == some true && specPostMatch q p))).map
          (mkPA db.users) := by
    rw [searchPosts_eq db q hU,
      List.filter_congr (fun p _ => postSearchCond_eq_spec q hq p)]
  have hvs : searchVideos db q =
      (sortDesc (fun v => v.createdAt)
        (db.videos.filter (fun v => v.published == some true && specVideoMatch q v))).map
          (mkVA db.users) := by
    rw [searchVideos_eq db q hU,
      List.filter_congr (fun v _ => videoSearchCond_eq_spec q hq v)]
  refine ⟨hps, ?_, hvs, ?_, ?_, ?_⟩
  · rw [hps]
    exact (sortDesc_pairwise _ _).map (mkPA db.users) (fun a b h => h)
  · rw [hvs]
    exact (sortDesc_pairwise _ _).map (mkVA db.users) (fun a b h => h)
  · rw [searchPosts_eq db "" hU,
      List.filter_congr (fun p _ => postSearchCond_eq_spec "" hempty p)]
    have : ∀ p ∈ db.posts, (p.published == some true && specPostMatch "" p) =
        (p.published == some true) := by
      intro p _
      rw [specPostMatch_empty, Bool.and_true]
    rw [List.filter_congr this]
  · rw [searchVideos_eq db "" hU,
      List.filter_congr (fun v _ => videoSearchCond_eq_spec "" hempty v)]
    have : ∀ v ∈ db.videos, (v.published == some true && specVideoMatch "" v) =
        (v.published == some true) := by
      intro v _
      rw [specVideoMatch_empty, Bool.and_true]
    rw [List.filter_congr this]

/-- C3 witness: the amended theorem applied to the example store and the
wildcard-free query "ell", which matches only the title of p1. -/
theorem C3_search_substring_witness :
    (("ell".data.all plainChar = true) ∧ (exDB.users.map User.id).Nodup) ∧
    C3Prop exDB "ell" :=
  ⟨⟨by decide, by decide⟩, C3_search_substring exDB "ell" (by decide) (by decide)⟩

/-! ## C4: partial updates -/

/-- The field-level contract of one post patch application: every supplied
field takes the supplied value, every omitted field keeps the stored
value, updatedAt becomes the current time, and id and createdAt are
untouched. -/
def C4PostFields (p : Post) (u : PostPatch) (now : Nat) (w : Post) : Prop :=
  (∀ x, u.title = some x → w.title = x) ∧ (u.title = none → w.title = p.title) ∧
  (∀ x, u.content = some x → w.content = x) ∧ (u.content = none → w.content = p.content) ∧
  (∀ x, u.excerpt = some x → w.excerpt = x) ∧ (u.excerpt = none → w.excerpt = p.excerpt) ∧
  (∀ x, u.imageUrl = some x → w.imageUrl = x) ∧ (u.imageUrl = none → w.imageUrl = p.imageUrl) ∧
  (∀ x, u.category = some x → w.category = x) ∧ (u.category = none → w.category = p.category) ∧
  (∀ x, u.tags = some x → w.tags = x) ∧ (u.tags = none → w.tags = p.tags) ∧
  (∀ x, u.authorId = some x → w.authorId = x) ∧ (u.authorId = none → w.authorId = p.authorId) ∧
  (∀ x, u.published = some x → w.published = x) ∧ (u.published = none → w.published = p.published) ∧
  (w.updatedAt = now) ∧ (w.createdAt = p.createdAt) ∧ (w.id = p.id)

/-- The field-level contract of one video patch application. -/
def C4VideoFields (v : Video) (u : VideoPatch) (now : Nat) (w : Video) : Prop :=
  (∀ x, u.title = some x → w.title = x) ∧ (u.title = none → w.title = v.title) ∧
  (∀ x, u.description = some x → w.description = x) ∧
    (u.description = none → w.description = v.description) ∧
  (∀ x, u.videoUrl = some x → w.videoUrl = x) ∧ (u.videoUrl = none → w.videoUrl = v.videoUrl) ∧
  (∀ x, u.thumbnailUrl = some x → w.thumbnailUrl = x) ∧
    (u.thumbnailUrl = none → w.thumbnailUrl = v.thumbnailUrl) ∧
  (∀ x, u.category = some x → w.category = x) ∧ (u.category = none → w.category = v.category) ∧
  (∀ x, u.tags = some x → w.tags = x) ∧ (u.tags = none → w.tags = v.tags) ∧
  (∀ x, u.duration = some x → w.duration = x) ∧ (u.duration = none → w.duration = v.duration) ∧
  (∀ x, u.authorId = some x → w.authorId = x) ∧ (u.authorId = none → w.authorId = v.authorId) ∧
  (∀ x, u.published = some x → w.published = x) ∧
    (u.published = none → w.published = v.published) ∧
  (w.updatedAt = now) ∧ (w.createdAt = v.createdAt) ∧ (w.id = v.id)

theorem applyPostPatch_fields (p : Post) (u : PostPatch) (now : Nat) :
    C4PostFields p u now (applyPostPatch p u now) := by
  unfold C4PostFields applyPostPatch
  and_intros <;>
    first
      | (intro x hx; simp [hx])
      | (intro hx; simp [hx])
      | rfl

theorem applyVideoPatch_fields (v : Video) (u : VideoPatch) (now : Nat) :
    C4VideoFields v u now (applyVideoPatch v u now) := by
  unfold C4VideoFields applyVideoPatch
  and_intros <;>
    first
      | (intro x hx; simp [hx])
      | (intro hx; simp [hx])
      | rfl

/-- The statement of claim C4 at a given store, id, patches and time. -/
def C4Prop (db : DB) (i : String) (u : PostPatch) (w : VideoPatch) (now : Nat) : Prop :=
  (∀ p ∈ db.posts, p.id = i →
    (updatePost db i u now).2 = some (applyPostPatch p u now) ∧
    C4PostFields p u now (applyPostPatch p u now) ∧
    applyPostPatch p u now ∈ (updatePost db i u now).1.posts) ∧
  (∀ q ∈ db.posts, ¬(q.id = i) → q ∈ (updatePost db i u now).1.posts) ∧
  ((∀ p ∈ db.posts, ¬(p.id = i)) →
    (updatePost db i u now).2 = none ∧ (updatePost db i u now).1 = db) ∧
  (∀ v ∈ db.videos, v.id = i →
    (updateVideo db i w now).2 = some (applyVideoPatch v w now) ∧
    C4VideoFields v w now (applyVideoPatch v w now) ∧
    applyVideoPatch v w now ∈ (updateVideo db i w now).1.videos) ∧
  (∀ x ∈ db.videos, ¬(x.id = i) → x ∈ (updateVideo db i w now).1.videos) ∧
  ((∀ v ∈ db.videos, ¬(v.id = i)) →
    (updateVideo db i w now).2 = none ∧ (updateVideo db i w now).1 = db)

/-- C4: `updatePost` and `updateVideo` patch only the supplied fields of
the matching row, leave omitted fields as stored, force updatedAt to the
current time, return the updated row, leave unrelated rows untouched, and
return none without failing when no row has the id. -/
theorem C4_update_partial_patch (db : DB) (i : String) (u : PostPatch) (w : VideoPatch)
    (now : Nat)
    (hP : (db.posts.map Post.id).Nodup)
    (hV : (db.videos.map Video.id).Nodup) :
    C4Prop db i u w now := by
  refine ⟨?_, ?_, ?_, ?_, ?_, ?_⟩
  · intro p hp hpi
    refine ⟨?_, applyPostPatch_fields p u now, ?_⟩
    · show (((db.posts.filter (fun x => x.id == i)).map
        (fun x => applyPostPatch x u now)).head? = some (applyPostPatch p u now))
      rw [filter_key_eq Post.id hP hp hpi]
      rfl
    · show applyPostPatch p u now ∈ db.posts.map
        (fun x => if x.id == i then applyPostPatch x u now else x)
      refine List.mem_map.mpr ⟨p, hp, ?_⟩
      rw [if_pos (by simpa using hpi)]
  · intro q hq hqi
    show q ∈ db.posts.map (fun x => if x.id == i then applyPostPatch x u now else x)
    refine List.mem_map.mpr ⟨q, hq, ?_⟩
    rw [if_neg (by simpa using hqi)]
  · intro h
    constructor
    · show (((db.posts.filter (fun x => x.id == i)).map
        (fun x => applyPostPatch x u now)).head? = none)
      have : db.posts.filter (fun x => x.id == i) = [] := by
        rw [List.filter_eq_nil_iff]
        intro x hx hxi
        exact h x hx (by simpa using hxi)
      rw [this]
      rfl
    · have hmap : db.posts.map (fun x => if x.id == i then applyPostPatch x u now else x)
          = db.posts := by
        rw [List.map_congr_left (fun x hx => if_neg (by simpa using h x hx))]
        exact List.map_id' db.posts
      unfold updatePost
      rw [hmap]
  · intro v hv hvi
    refine ⟨?_, applyVideoPatch_fields v w now, ?_⟩
    · show (((db.videos.filter (fun x => x.id == i)).map
        (fun x => applyVideoPatch x w now)).head? = some (applyVideoPatch v w now))
      rw [filter_key_eq Video.id hV hv hvi]
      rfl
    · show applyVideoPatch v w now ∈ db.videos.map
        (fun x => if x.id == i then applyVideoPatch x w now else x)
      refine List.mem_map.mpr ⟨v, hv, ?_⟩
      rw [if_pos (by simpa using hvi)]
  · intro x hx hxi
    show x ∈ db.videos.map (fun y => if y.id == i then applyVideoPatch y w now else y)
    refine List.mem_map.mpr ⟨x, hx, ?_⟩
    rw [if_neg (by simpa using hxi)]
  · intro h
    constructor
    · show (((db.videos.filter (fun x => x.id == i)).map
        (fun x => applyVideoPatch x w now)).head? = none)
      have : db.videos.filter (fun x => x.id == i) = [] := by
        rw [List.filter_eq_nil_iff]
        intro x hx hxi
        exact h x hx (by simpa using hxi)
      rw [this]
      rfl
    · have hmap : db.videos.map (fun x => if x.id == i then applyVideoPatch x w now else x)
          = db.videos := by
        rw [List.map_congr_left (fun x hx => if_neg (by simpa using h x hx))]
        exact List.map_id' db.videos
      unfold updateVideo
      rw [hmap]

/-- C4 witness: patch the title of p1 in the example store at time 99. -/
theorem C4_update_partial_patch_witness :
    ((exDB.posts.map Post.id).Nodup ∧ (exDB.videos.map Video.id).Nodup) ∧
    C4Prop exDB "p1"
      { title := some "patched", content := none, excerpt := none, imageUrl := none,
        category := none, tags := none, authorId := none, published := none }
      { title := none, description := none, videoUrl := none, thumbnailUrl := none,
        category := none, tags := none, duration := none, authorId := none,
        published := some (some false) }
      99 :=
  ⟨⟨by decide, by decide⟩,
   C4_update_partial_patch exDB "p1" _ _ 99 (by decide) (by decide)⟩

/-! ## C6 and C9: upsert and timestamps -/

theorem find_key_eq {α : Type} (f : α → String) {l : List α} {x : α} {i : String}
    (hN : (l.map f).Nodup) (hx : x ∈ l) (hi : f x = i) :
    l.find? (fun y => f y == i) = some x := by
  induction l with
  | nil => cases hx
  | cons a rest ih =>
    simp only [List.map_cons, List.nodup_cons] at hN
    obtain ⟨hnotin, hrest⟩ := hN
    rcases List.mem_cons.mp hx with rfl | hmem
    · rw [List.find?_cons_of_pos _ (by simpa using hi)]
    · have hfa : ¬(f a = i) := by
        intro hcon
        apply hnotin
        rw [hcon, ← hi]
        exact List.mem_map_of_mem f hmem
      rw [List.find?_cons_of_neg _ (by simpa using hfa)]
      exact ih hrest hmem

theorem upsertUser_insert (db : DB) (u : UpsertUser) (now : Nat) (genId : String)
    (uid : String) (hid : u.id.getD genId = uid)
    (hnone : db.users.find? (fun x => x.id == uid) = none) :
    upsertUser db u now genId =
      ({ db with users := db.users ++ [insertRow u now uid] }, insertRow u now uid) := by
  unfold upsertUser
  rw [hid]
  simp only [hnone]

theorem upsertUser_merge (db : DB) (u : UpsertUser) (now : Nat) (genId : String)
    (uid : String) (old : User) (hid : u.id.getD genId = uid)
    (hsome : db.users.find? (fun x => x.id == uid) = some old) :
    upsertUser db u now genId =
      ({ db with users := db.users.map (fun x => if x.id == uid then mergeRow u old now uid else x) },
       mergeRow u old now uid) := by
  unfold upsertUser
  rw [hid]
  simp only [hsome]

/-- The empty store. -/
def emptyDB : DB := { users := [], posts := [], videos := [], comments := [] }

def cexU1 : UpsertUser :=
  { id := some "a"
    email := some (some "one")
    firstName := none
    lastName := none
    profileImageUrl := none
    role := none
    createdAt := none
    updatedAt := none }

def cexU2 : UpsertUser :=
  { id := some "a"
    email := some (some "two")
    firstName := none
    lastName := none
    profileImageUrl := none
    role := none
    createdAt := some 99
    updatedAt := none }

/-- Both upsert calls, sequenced. -/
def twiceUpsert (db : DB) (u1 u2 : UpsertUser) (t1 t2 : Nat) (g1 g2 : String) : DB × User :=
  upsertUser (upsertUser db u1 t1 g1).1 u2 t2 g2

/-- C6 counterexample: two upserts of id "a" where the second supplies a
createdAt value.  The first call creates the row with createdAt 1; the
second call leaves a row with createdAt 99: the conflict path spreads
every supplied field into SET, including createdAt, so createdAt is NOT
unchanged from the first call, falsifying the claim as universally
quantified over userData. -/
theorem C6_counterexample :
    ((upsertUser emptyDB cexU1 1 "g1").2.createdAt = 1) ∧
    ((twiceUpsert emptyDB cexU1 cexU2 1 2 "g1" "g2").2.createdAt = 99) ∧
    ((twiceUpsert emptyDB cexU1 cexU2 1 2 "g1" "g2").1.users.map User.createdAt = [99]) ∧
    (cexU1.id = some "a" ∧ cexU2.id = some "a") ∧
    ¬((99 : Nat) = 1) := by
  refine ⟨by decide, by decide, by decide, ⟨by decide, by decide⟩, by decide⟩

/-- The statement of the amended claim C6: first call inserts, second call
with the same id merges the supplied fields and refreshes updatedAt. -/
def C6Prop (db : DB) (u1 u2 : UpsertUser) (i : String) (t1 t2 : Nat) (g1 g2 : String) : Prop :=
  ((upsertUser db u1 t1 g1).1.users = db.users ++ [(upsertUser db u1 t1 g1).2]) ∧
  ((upsertUser db u1 t1 g1).2.id = i) ∧
  ((upsertUser db u1 t1 g1).2.createdAt = t1) ∧
  ((upsertUser db u1 t1 g1).2.updatedAt = t1) ∧
  ((twiceUpsert db u1 u2 t1 t2 g1 g2).2.id = i) ∧
  (∀ x, u2.email = some x → (twiceUpsert db u1 u2 t1 t2 g1 g2).2.email = x) ∧
  (u2.email = none →
    (twiceUpsert db u1 u2 t1 t2 g1 g2).2.email = (upsertUser db u1 t1 g1).2.email) ∧
  (∀ x, u2.firstName = some x → (twiceUpsert db u1 u2 t1 t2 g1 g2).2.firstName = x) ∧
  (u2.firstName = none →
    (twiceUpsert db u1 u2 t1 t2 g1 g2).2.firstName = (upsertUser db u1 t1 g1).2.firstName) ∧
  (∀ x, u2.lastName = some x → (twiceUpsert db u1 u2 t1 t2 g1 g2).2.lastName = x) ∧
  (u2.lastName = none →
    (twiceUpsert db u1 u2 t1 t2 g1 g2).2.lastName = (upsertUser db u1 t1 g1).2.lastName) ∧
  (∀ x, u2.profileImageUrl = some x →
    (twiceUpsert db u1 u2 t1 t2 g1 g2).2.profileImageUrl = x) ∧
  (u2.profileImageUrl = none →
    (twiceUpsert db u1 u2 t1 t2 g1 g2).2.profileImageUrl =
      (upsertUser db u1 t1 g1).2.profileImageUrl) ∧
  (∀ x, u2.role = some x → (twiceUpsert db u1 u2 t1 t2 g1 g2).2.role = x) ∧
  (u2.role = none →
    (twiceUpsert db u1 u2 t1 t2 g1 g2).2.role = (upsertUser db u1 t1 g1).2.role) ∧
  ((twiceUpsert db u1 u2 t1 t2 g1 g2).2.updatedAt = t2) ∧
  ((upsertUser db u1 t1 g1).2.updatedAt < (twiceUpsert db u1 u2 t1 t2 g1 g2).2.updatedAt) ∧
  ((twiceUpsert db u1 u2 t1 t2 g1 g2).2.createdAt = (upsertUser db u1 t1 g1).2.createdAt) ∧
  ((twiceUpsert db u1 u2 t1 t2 g1 g2).1.users.filter (fun x => x.id == i) =
    [(twiceUpsert db u1 u2 t1 t2 g1 g2).2])

/-- C6 amended: upsertUser creates a new row when no row with the id
exists and otherwise overwrites the stored row with every supplied field,
refreshing updatedAt; two calls with the same id leave a single row with
the second call's supplied values and an advanced updatedAt, and the
createdAt of the first call survives provided the second call does not
itself supply createdAt. -/
theorem C6_upsert_insert_then_merge (db : DB) (u1 u2 : UpsertUser) (i : String)
    (t1 t2 : Nat) (g1 g2 : String)
    (hNo : ∀ x ∈ db.users, ¬(x.id = i))
    (h1 : u1.id = some i) (h2 : u2.id = some i)
    (hu1c : u1.createdAt = none) (hu1u : u1.updatedAt = none)
    (hc2 : u2.createdAt = none)
    (ht : t1 < t2) :
    C6Prop db u1 u2 i t1 t2 g1 g2 := by
  have hid1 : u1.id.getD g1 = i := by rw [h1]; rfl
  have hid2 : u2.id.getD g2 = i := by rw [h2]; rfl
  have hnone : db.users.find? (fun x => x.id == i) = none :=
    List.find?_eq_none.mpr (fun x hx => by simpa using hNo x hx)
  have e1 : upsertUser db u1 t1 g1 =
      ({ db with users := db.users ++ [insertRow u1 t1 i] }, insertRow u1 t1 i) :=
    upsertUser_insert db u1 t1 g1 i hid1 hnone
  have hfind2 : (db.users ++ [insertRow u1 t1 i]).find? (fun x => x.id == i) =
      some (insertRow u1 t1 i) := by
    rw [List.find?_append, hnone]
    simp [insertRow]
  have e2 : twiceUpsert db u1 u2 t1 t2 g1 g2 =
      ({ db with users := (db.users ++ [insertRow u1 t1 i]).map (fun x => if x.id == i then mergeRow u2 (insertRow u1 t1 i) t2 i else x) },
       mergeRow u2 (insertRow u1 t1 i) t2 i) := by
    rw [twiceUpsert, e1]
    exact upsertUser_merge _ u2 t2 g2 i (insertRow u1 t1 i) hid2 hfind2
  refine ⟨?_, ?_, ?_, ?_, ?_, ?_, ?_, ?_, ?_, ?_, ?_, ?_, ?_, ?_, ?_, ?_, ?_, ?_, ?_⟩
  · rw [e1]
  · rw [e1]
    rfl
  · rw [e1]
    simp [insertRow, hu1c]
  · rw [e1]
    simp [insertRow, hu1u]
  · rw [e2]
    rfl
  · intro x hx
    rw [e2]
    simp [mergeRow, hx]
  · intro hx
    rw [e2, e1]
    simp [mergeRow, hx]
  · intro x hx
    rw [e2]
    simp [mergeRow, hx]
  · intro hx
    rw [e2, e1]
    simp [mergeRow, hx]
  · intro x hx
    rw [e2]
    simp [mergeRow, hx]
  · intro hx
    rw [e2, e1]
    simp [mergeRow, hx]
  · intro x hx
    rw [e2]
    simp [mergeRow, hx]
  · intro hx
    rw [e2, e1]
    simp [mergeRow, hx]
  · intro x hx
    rw [e2]
    simp [mergeRow, hx]
  · intro hx
    rw [e2, e1]
    simp [mergeRow, hx]
  · rw [e2]
    rfl
  · rw [e2, e1]
    simpa [insertRow, mergeRow, hu1u] using ht
  · rw [e2, e1]
    simp [insertRow, mergeRow, hc2]
  · rw [e2]
    show ((db.users ++ [insertRow u1 t1 i]).map
        (fun x => if x.id == i then mergeRow u2 (insertRow u1 t1 i) t2 i else x)).filter
          (fun x => x.id == i) = [mergeRow u2 (insertRow u1 t1 i) t2 i]
    rw [List.map_append]
    have hmapNo : db.users.map
        (fun x => if x.id == i then mergeRow u2 (insertRow u1 t1 i) t2 i else x) = db.users := by
      rw [List.map_congr_left (fun x hx => if_neg (by simpa using hNo x hx))]
      exact List.map_id' db.users
    rw [hmapNo, List.filter_append]
    have hfilNo : db.users.filter (fun x => x.id == i) = [] := by
      rw [List.filter_eq_nil_iff]
      intro x hx hxi
      exact hNo x hx (by simpa using hxi)
    rw [hfilNo]
    simp [insertRow, mergeRow]

def wexU2 : UpsertUser :=
  { id := some "a"
    email := some (some "two")
    firstName := some (some "Bea")
    lastName := none
    profileImageUrl := none
    role := none
    createdAt := none
    updatedAt := none }

/-- C6 witness: the amended theorem applied to two concrete upserts of id
"a" on the empty store at times 1 and 2. -/
theorem C6_upsert_insert_then_merge_witness :
    ((∀ x ∈ emptyDB.users, ¬(x.id = "a")) ∧ cexU1.id = some "a" ∧ wexU2.id = some "a" ∧
      cexU1.createdAt = none ∧ cexU1.updatedAt = none ∧ wexU2.createdAt = none ∧
      (1 : Nat) < 2) ∧
    C6Prop emptyDB cexU1 wexU2 "a" 1 2 "g1" "g2" :=
  ⟨⟨by decide, by decide, by decide, by decide, by decide, by decide, by decide⟩,
   C6_upsert_insert_then_merge emptyDB cexU1 wexU2 "a" 1 2 "g1" "g2" (by decide) (by decide)
     (by decide) (by decide) (by decide) (by decide) (by decide)⟩

/-! ## C9 -/

def cx9U : User :=
  { id := "u9"
    email := none
    firstName := none
    lastName := none
    profileImageUrl := none
    role := some "user"
    createdAt := 1
    updatedAt := 1 }

def cx9DB : DB := { users := [cx9U], posts := [], videos := [], comments := [] }

def cx9Up : UpsertUser :=
  { id := some "u9"
    email := none
    firstName := none
    lastName := none
    profileImageUrl := none
    role := none
    createdAt := some 7
    updatedAt := none }

/-- C9 counterexample: the stored user u9 was created at time 1, yet an
upsert whose userData supplies createdAt 7 rewrites the stored row's
createdAt to 7 - a Repository operation does mutate createdAt, falsifying
the claim quantified over all operations and inputs. -/
theorem C9_counterexample :
    (cx9U ∈ cx9DB.users) ∧ (cx9U.createdAt = 1) ∧
    ((upsertUser cx9DB cx9Up 5 "g").1.users.map User.createdAt = [7]) ∧
    ((upsertUser cx9DB cx9Up 5 "g").2.createdAt = 7) ∧
    ¬((7 : Nat) = 1) := by
  refine ⟨by decide, by decide, by decide, by decide, by decide⟩

/-- The statement of the amended claim C9: updates preserve createdAt and
refresh updatedAt on the patched rows; the upsert conflict path does the
same provided the data does not supply createdAt. -/
def C9Prop (db : DB) (i : String) (u : PostPatch) (w : VideoPatch) (uu : UpsertUser)
    (now : Nat) (g : String) : Prop :=
  ((updatePost db i u now).1.posts.map Post.createdAt = db.posts.map Post.createdAt) ∧
  ((updatePost db i u now).1.posts.map Post.updatedAt =
    db.posts.map (fun p => if p.id = i then now else p.updatedAt)) ∧
  ((updateVideo db i w now).1.videos.map Video.createdAt = db.videos.map Video.createdAt) ∧
  ((updateVideo db i w now).1.videos.map Video.updatedAt =
    db.videos.map (fun v => if v.id = i then now else v.updatedAt)) ∧
  ((upsertUser db uu now g).1.users.map User.createdAt = db.users.map User.createdAt) ∧
  ((upsertUser db uu now g).2.updatedAt = now)

/-- C9 amended: createdAt is set once and never mutated by updatePost or
updateVideo; upsertUser preserves every stored createdAt provided its
userData does not supply createdAt (a supplied createdAt overwrites the
column like any other field, see the counterexample); updatedAt is
refreshed on the patched rows by every update, including the conflict
path of upsertUser. -/
theorem C9_timestamps (db : DB) (i : String) (u : PostPatch) (w : VideoPatch)
    (uu : UpsertUser) (now : Nat) (g : String)
    (hU : (db.users.map User.id).Nodup)
    (hEx : ∃ x ∈ db.users, x.id = uu.id.getD g)
    (hc : uu.createdAt = none) :
    C9Prop db i u w uu now g := by
  obtain ⟨x0, hx0, hx0i⟩ := hEx
  have hfind : db.users.find? (fun y => y.id == uu.id.getD g) = some x0 :=
    find_key_eq User.id hU hx0 hx0i
  have e := upsertUser_merge db uu now g (uu.id.getD g) x0 rfl hfind
  refine ⟨?_, ?_, ?_, ?_, ?_, ?_⟩
  · show (db.posts.map (fun p => if p.id == i then applyPostPatch p u now else p)).map
      Post.createdAt = db.posts.map Post.createdAt
    rw [List.map_map]
    refine List.map_congr_left (fun p _ => ?_)
    by_cases h : p.id = i <;> simp [h, applyPostPatch, Function.comp_def]
  · show (db.posts.map (fun p => if p.id == i then applyPostPatch p u now else p)).map
      Post.updatedAt = db.posts.map (fun p => if p.id = i then now else p.updatedAt)
    rw [List.map_map]
    refine List.map_congr_left (fun p _ => ?_)
    by_cases h : p.id = i <;> simp [h, applyPostPatch, Function.comp_def]
  · show (db.videos.map (fun v => if v.id == i then applyVideoPatch v w now else v)).map
      Video.createdAt = db.videos.map Video.createdAt
    rw [List.map_map]
    refine List.map_congr_left (fun v _ => ?_)
    by_cases h : v.id = i <;> simp [h, applyVideoPatch, Function.comp_def]
  · show (db.videos.map (fun v => if v.id == i then applyVideoPatch v w now else v)).map
      Video.updatedAt = db.videos.map (fun v => if v.id = i then now else v.updatedAt)
    rw [List.map_map]
    refine List.map_congr_left (fun v _ => ?_)
    by_cases h : v.id = i <;> simp [h, applyVideoPatch, Function.comp_def]
  · rw [e]
    show (db.users.map (fun x => if x.id == uu.id.getD g then mergeRow uu x0 now (uu.id.getD g) else x)).map User.createdAt = db.users.map User.createdAt
    rw [List.map_map]
    refine List.map_congr_left (fun y hy => ?_)
    by_cases h : y.id = uu.id.getD g
    · have hyx : y = x0 := List.inj_on_of_nodup_map hU hy hx0 (h.trans hx0i.symm)
      subst hyx
      simp [h, mergeRow, hc, Function.comp_def]
    · simp [h, Function.comp_def]
  · rw [e]
    rfl

def wx9Up : UpsertUser :=
  { id := some "u1"
    email := none
    firstName := none
    lastName := none
    profileImageUrl := none
    role := none
    createdAt := none
    updatedAt := some 50 }

def wx9PP : PostPatch :=
  { title := some "t"
    content := none
    excerpt := none
    imageUrl := none
    category := none
    tags := none
    authorId := none
    published := none }

def wx9VP : VideoPatch :=
  { title := none
    description := none
    videoUrl := none
    thumbnailUrl := none
    category := none
    tags := none
    duration := none
    authorId := none
    published := none }

/-- C9 witness: the amended theorem applied to the example store, patching
post p1, leaving videos untouched, and upserting the existing user u1 at
time 99. -/
theorem C9_timestamps_witness :
    ((exDB.users.map User.id).Nodup ∧
      (∃ x ∈ exDB.users, x.id = wx9Up.id.getD "g") ∧
      wx9Up.createdAt = none) ∧
    C9Prop exDB "p1" wx9PP wx9VP wx9Up 99 "g" :=
  ⟨⟨by decide, ⟨exU1, by decide⟩, by decide⟩,
   C9_timestamps exDB "p1" wx9PP wx9VP wx9Up 99 "g" (by decide) ⟨exU1, by decide⟩ (by decide)⟩
